import Mathlib

/-!
Verification development for the OceanMonitor Deck-Unit protocol engine.

The definitions below are a shallow embedding of the TypeScript source:
`src/context/BLEContext.tsx` (frame codec, request/response matcher,
connection pipeline, schedulers, file-catalog reconciler) and
`src/service/DataService.ts` (local file storage).  Bytes are modelled as
`Nat`, JavaScript numbers holding millisecond epoch times as `Int`, and
the event-driven loops as structurally recursive functions over explicit
event lists, with a fuel argument standing in for loop bounds that the
source enforces through buffer consumption.
-/

namespace OceanMonitor

/-! ### Frame codec (`parsePackets`, BLEContext.tsx lines 443-534) -/

/-- Parsed inbound packet: source `type ParsedPkt = { opcode: string; payload: Uint8Array }`.
The opcode is produced by `String.fromCharCode(byte)`; we keep the raw byte. -/
structure Pkt where
  opcode : Nat
  payload : List Nat
deriving DecidableEq, Repr

/-- Node `Buffer.toString('ascii')` keeps only the low seven bits of every byte. -/
def asciiMask (b : Nat) : Nat := b % 128

/-- Character class `[0-9A-Fa-f]` of the size-field regex, applied to one
ascii-decoded byte. -/
def isHexDigit (b : Nat) : Bool :=
  decide (0x30 ≤ b ∧ b ≤ 0x39) || decide (0x41 ≤ b ∧ b ≤ 0x46) ||
    decide (0x61 ≤ b ∧ b ≤ 0x66)

/-- The regex test `/^[0-9A-Fa-f]{4}$/.test(sizeHex)` where `sizeHex` is bytes
1..4 rendered with `toString('ascii')`. -/
def isHex4 (a b c d : Nat) : Bool :=
  isHexDigit (asciiMask a) && isHexDigit (asciiMask b) &&
    isHexDigit (asciiMask c) && isHexDigit (asciiMask d)

/-- Value of one hex digit character (`parseInt` digit value; only consulted
after the regex test has passed). -/
def hexDigitVal (b : Nat) : Nat :=
  if 0x30 ≤ b ∧ b ≤ 0x39 then b - 0x30
  else if 0x41 ≤ b ∧ b ≤ 0x46 then b - 0x41 + 10
  else if 0x61 ≤ b ∧ b ≤ 0x66 then b - 0x61 + 10
  else 0

/-- The numeric value `parseInt(sizeHex, 16)` of the 4-character size field. -/
def hex4Val (a b c d : Nat) : Nat :=
  ((hexDigitVal (asciiMask a) * 16 + hexDigitVal (asciiMask b)) * 16 +
      hexDigitVal (asciiMask c)) * 16 + hexDigitVal (asciiMask d)

/-- Body of the `while (packetsProcessed < MAX_PACKETS_PER_CALL)` loop of
`parsePackets`.  `cnt` is `packetsProcessed` (cap 10); the returned pair is the
remaining buffer and the packets pushed onto `rxQueueRef` in order.  The extra
`fuel` argument bounds the loop: every iteration either returns or consumes at
least one byte of the buffer, so fuel equal to the buffer length is always
sufficient (see `parsePacketsFrom`). -/
def parseGoF : Nat → List Nat → Nat → List Nat × List Pkt
  | 0, buf, _ => (buf, [])
  | fuel + 1, buf, cnt =>
    if 10 ≤ cnt then (buf, [])
    else
      match buf with
      | [] => ([], [])
      | [b] => ([b], [])
      | b0 :: b1 :: rest =>
        let buf := b0 :: b1 :: rest
        if b0 ≠ 0x2A then
          -- resynchronization: `indexOf(0x2A)`, discard preceding bytes
          match buf.findIdx? (fun b => b == 0x2A) with
          | none => ([], [])
          | some i => parseGoF fuel (buf.drop i) cnt
        else if 0x41 ≤ b1 ∧ b1 ≤ 0x5A then
          -- compact frame: size = letter - 'A' + 1, totalLen = 1 + size
          let size := b1 - 0x41 + 1
          let totalLen := 1 + size
          if buf.length < totalLen then (buf, [])
          else
            let payloadLen := size - 2
            if 2 ≥ buf.length ∨ 3 > buf.length ∨ 3 + payloadLen > buf.length then
              parseGoF fuel (buf.drop 1) cnt
            else
              let pkt : Pkt := ⟨(buf[2]?).getD 0, (buf.drop 3).take payloadLen⟩
              let r := parseGoF fuel (buf.drop totalLen) (cnt + 1)
              (r.1, pkt :: r.2)
        else
          -- extended frame: four ascii hex digits, opcode, reserved byte, payload
          if buf.length < 6 then (buf, [])
          else if isHex4 b1 ((buf[2]?).getD 0) ((buf[3]?).getD 0) ((buf[4]?).getD 0) = false then
            parseGoF fuel (buf.drop 1) cnt
          else
            let size := hex4Val b1 ((buf[2]?).getD 0) ((buf[3]?).getD 0) ((buf[4]?).getD 0)
            if 65535 < size ∨ size < 5 then
              parseGoF fuel (buf.drop 1) cnt
            else
              let totalLen := 1 + size + 1
              if buf.length < totalLen then (buf, [])
              else
                let payloadLen := size - 5
                if 5 ≥ buf.length ∨ 7 > buf.length ∨ 7 + payloadLen > buf.length then
                  parseGoF fuel (buf.drop 1) cnt
                else
                  let pkt : Pkt := ⟨(buf[5]?).getD 0, (buf.drop 7).take payloadLen⟩
                  let r := parseGoF fuel (buf.drop totalLen) (cnt + 1)
                  (r.1, pkt :: r.2)

/-- One invocation of `parsePackets` starting with `packetsProcessed = cnt`. -/
def parsePacketsFrom (buf : List Nat) (cnt : Nat) : List Nat × List Pkt :=
  parseGoF buf.length buf cnt

/-- One invocation of `parsePackets` on the current inbound buffer. -/
def parsePackets (buf : List Nat) : List Nat × List Pkt :=
  parsePacketsFrom buf 0

/-- Spec-level description of one compact frame (`sync, sizeLetter, opcode, payload`). -/
structure Frame where
  opcode : Nat
  payload : List Nat
deriving DecidableEq, Repr

/-- Declared size of a compact frame: opcode byte plus payload, `size = 2 + |payload|`. -/
def Frame.size (f : Frame) : Nat := 2 + f.payload.length

/-- Wire encoding of a compact frame: `0x2A, 'A' + size - 1, opcode, payload`. -/
def Frame.encode (f : Frame) : List Nat :=
  0x2A :: (0x41 + (f.size - 1)) :: f.opcode :: f.payload

/-- The packet the codec should emit for a frame. -/
def Frame.toPkt (f : Frame) : Pkt := ⟨f.opcode, f.payload⟩

/-- Back-to-back encoding of a list of compact frames. -/
def framesEncode (fs : List Frame) : List Nat := (fs.map Frame.encode).flatten

example : parsePackets (Frame.encode ⟨0x61, [1, 2, 3]⟩) = ([], [⟨0x61, [1, 2, 3]⟩]) := by decide

example :
    parsePackets (framesEncode [⟨0x46, []⟩, ⟨0x44, [9]⟩])
      = ([], [⟨0x46, []⟩, ⟨0x44, [9]⟩]) := by decide

example : parsePackets [0x2A, 0x30, 0x30, 0x30, 0x30, 0x00] = ([], []) := by decide

theorem parseGoF_frame_step (op : Nat) (payload tail : List Nat) (fuel cnt : Nat)
    (hpl : payload.length ≤ 24) (hcnt : cnt < 10) :
    parseGoF (fuel + 1) (Frame.encode ⟨op, payload⟩ ++ tail) cnt
      = ((parseGoF fuel tail (cnt + 1)).1,
          Frame.toPkt ⟨op, payload⟩ :: (parseGoF fuel tail (cnt + 1)).2) := by
  simp only [Frame.encode, Frame.size, Frame.toPkt, List.cons_append]
  rw [parseGoF]
  simp only [List.length_cons, List.length_append]
  rw [if_neg (by omega : ¬ 10 ≤ cnt)]
  rw [if_neg (by omega : ¬ (0x2A : Nat) ≠ 0x2A)]
  rw [if_pos (by constructor <;> omega)]
  rw [if_neg (by omega)]
  rw [if_neg (by omega)]
  have e1 : 0x41 + (2 + payload.length - 1) - 0x41 + 1 - 2 = payload.length := by omega
  have e2 : 1 + (0x41 + (2 + payload.length - 1) - 0x41 + 1) = 3 + payload.length := by omega
  rw [e1, e2]
  have e3 : List.drop 3 (0x2A :: (0x41 + (2 + payload.length - 1)) :: op :: (payload ++ tail))
      = payload ++ tail := rfl
  have e4 : List.drop (3 + payload.length)
      (0x2A :: (0x41 + (2 + payload.length - 1)) :: op :: (payload ++ tail)) = tail := by
    rw [show 3 + payload.length = payload.length + 1 + 1 + 1 by omega]
    simp only [List.drop_succ_cons]
    exact List.drop_left payload tail
  rw [e3, e4]
  simp only [List.getElem?_cons_succ, List.getElem?_cons_zero, Option.getD_some,
    List.take_left]

theorem framesEncode_cons (f : Frame) (fs : List Frame) :
    framesEncode (f :: fs) = Frame.encode f ++ framesEncode fs := rfl

theorem parseGoF_at_cap (fuel : Nat) (buf : List Nat) (cnt : Nat) (h : 10 ≤ cnt) :
    parseGoF fuel buf cnt = (buf, []) := by
  cases fuel with
  | zero => rfl
  | succ m =>
    rw [parseGoF.eq_def]
    split
    · rfl
    · rw [if_pos h]

theorem parseGoF_frames (fs : List Frame) :
    ∀ fuel cnt, (∀ f ∈ fs, f.payload.length ≤ 24) → (framesEncode fs).length ≤ fuel →
      cnt ≤ 10 →
      parseGoF fuel (framesEncode fs) cnt
        = (framesEncode (fs.drop (10 - cnt)), (fs.take (10 - cnt)).map Frame.toPkt) := by
  induction fs with
  | nil =>
    intro fuel cnt _ _ _
    simp only [framesEncode, List.map_nil, List.flatten_nil, List.drop_nil, List.take_nil]
    cases fuel with
    | zero => rfl
    | succ m =>
      rw [parseGoF.eq_def]
      split <;> first | rfl | (split <;> rfl)
  | cons f fs ih =>
    intro fuel cnt hwf hfuel hcnt
    rcases Nat.lt_or_ge cnt 10 with hlt | hge
    · obtain ⟨op, payload⟩ := f
      have hf : payload.length ≤ 24 := hwf _ (List.mem_cons_self _ _)
      have hlen3 : 3 + payload.length + (framesEncode fs).length
          = (framesEncode (⟨op, payload⟩ :: fs)).length := by
        simp [framesEncode_cons, Frame.encode, Frame.size]
        omega
      obtain ⟨m, rfl⟩ : ∃ m, fuel = m + 1 := ⟨fuel - 1, by omega⟩
      rw [framesEncode_cons, parseGoF_frame_step op payload (framesEncode fs) m cnt hf hlt]
      rw [ih m (cnt + 1) (fun g hg => hwf g (List.mem_cons_of_mem _ hg)) (by omega) (by omega)]
      have hsplit : 10 - cnt = (10 - (cnt + 1)) + 1 := by omega
      rw [hsplit, List.drop_succ_cons, List.take_succ_cons, List.map_cons]
    · have hc : cnt = 10 := by omega
      subst hc
      rw [parseGoF_at_cap _ _ _ le_rfl]
      simp

/-- Claim C7: a buffer of well-formed back-to-back compact frames (sync `0x2A`,
size letter encoding `size = 2 + |payload|` in `[2,26]`, opcode, payload) is
parsed by one `parsePackets` invocation into exactly one packet per frame, in
buffer order, with the frame's opcode byte and payload, up to the
per-invocation cap of 10 frames (frames beyond the cap stay in the buffer). -/
theorem compact_frames_parse_exactly (frames : List Frame)
    (hwf : ∀ f ∈ frames, f.payload.length ≤ 24) :
    parsePackets (framesEncode frames)
      = (framesEncode (frames.drop 10), (frames.take 10).map Frame.toPkt) := by
  have h := parseGoF_frames frames (framesEncode frames).length 0 hwf le_rfl (by omega)
  simpa [parsePackets, parsePacketsFrom] using h

theorem compact_frames_parse_exactly_witness :
    (∀ f ∈ [Frame.mk 0x46 [], Frame.mk 0x61 [1, 2]], f.payload.length ≤ 24) ∧
    parsePackets (framesEncode [Frame.mk 0x46 [], Frame.mk 0x61 [1, 2]])
      = (framesEncode ([Frame.mk 0x46 [], Frame.mk 0x61 [1, 2]].drop 10),
         ([Frame.mk 0x46 [], Frame.mk 0x61 [1, 2]].take 10).map Frame.toPkt) :=
  ⟨by decide, compact_frames_parse_exactly _ (by decide)⟩

/-- Claim C8: positioned at a sync marker whose size byte is not a compact size
letter, if the 4-byte extended size field is not valid hex or decodes outside
`[5, 65535]`, the parser drops exactly one byte and retries from the new
offset, emitting no packet for the dropped byte. -/
theorem bad_extended_size_drops_one_byte (b1 : Nat) (rest : List Nat) (cnt : Nat)
    (hb1 : ¬ (0x41 ≤ b1 ∧ b1 ≤ 0x5A))
    (hlen : 6 ≤ (0x2A :: b1 :: rest).length)
    (hbad : isHex4 b1 ((rest[0]?).getD 0) ((rest[1]?).getD 0) ((rest[2]?).getD 0) = false
         ∨ (hex4Val b1 ((rest[0]?).getD 0) ((rest[1]?).getD 0) ((rest[2]?).getD 0) < 5
            ∨ 65535 < hex4Val b1 ((rest[0]?).getD 0) ((rest[1]?).getD 0) ((rest[2]?).getD 0)))
    (hcnt : cnt < 10) :
    parsePacketsFrom (0x2A :: b1 :: rest) cnt = parsePacketsFrom (b1 :: rest) cnt := by
  show parseGoF (0x2A :: b1 :: rest).length (0x2A :: b1 :: rest) cnt = _
  have hl : (0x2A :: b1 :: rest).length = (b1 :: rest).length + 1 := by simp
  rw [hl, parseGoF]
  rw [if_neg (by omega : ¬ 10 ≤ cnt)]
  rw [if_neg (by omega : ¬ (0x2A : Nat) ≠ 0x2A)]
  rw [if_neg hb1]
  rw [if_neg (by simp at hlen ⊢; omega)]
  simp only [List.getElem?_cons_succ, List.getElem?_cons_zero]
  rcases hbad with hnone | hout
  · rw [if_pos hnone]
    rfl
  · cases h4 : isHex4 b1 ((rest[0]?).getD 0) ((rest[1]?).getD 0) ((rest[2]?).getD 0) with
    | false =>
      rw [if_pos rfl]
      rfl
    | true =>
      rw [if_neg (by simp)]
      rw [if_pos (Or.symm hout)]
      rfl

theorem bad_extended_size_drops_one_byte_witness :
    parsePacketsFrom [0x2A, 0x30, 0x30, 0x30, 0x30, 0x00, 0x00] 0
      = parsePacketsFrom [0x30, 0x30, 0x30, 0x30, 0x00, 0x00] 0 :=
  bad_extended_size_drops_one_byte 0x30 [0x30, 0x30, 0x30, 0x00, 0x00] 0
    (by decide) (by decide) (by decide) (by decide)

/-! ### Request/response matcher (`dequeueIf`, `readPacket`, lines 536-563) -/

/-- Source `dequeueIf`: find the first queued packet with the wanted opcode
(`findIndex`), remove it (`splice`) and return it together with the remaining
queue; `none` when no queued packet matches. -/
def dequeueIf (op : Nat) : List Pkt → Option (Pkt × List Pkt)
  | [] => none
  | p :: rest =>
    if p.opcode = op then some (p, rest)
    else
      match dequeueIf op rest with
      | none => none
      | some (q, rest') => some (q, p :: rest')

/-- Source `readPacket`: poll `dequeueIf` in a loop; on a miss compare
`elapsed` against the timeout and throw on expiry, otherwise `await delay(10)`
and retry.  The queue is static here (nothing enqueues during the wait, which
is the situation of claim C9).  Result: `(payload?, queue after, elapsed ms)`;
`none` models the thrown Timeout error.  Fuel bounds the loop; it is harmless
because nothing matches only finitely many polls before `elapsed > timeout`
(see `readPacket`). -/
def readPacketLoop (op timeout : Nat) (q : List Pkt) :
    Nat → Nat → Option (List Nat) × List Pkt × Nat
  | 0, elapsed => (none, q, elapsed)
  | fuel + 1, elapsed =>
    match dequeueIf op q with
    | some (pkt, rest) => (some pkt.payload, rest, elapsed)
    | none =>
      if timeout < elapsed then (none, q, elapsed)
      else readPacketLoop op timeout q fuel (elapsed + 10)

/-- Source `readPacket(expectedOpcode, timeout)` started at `elapsed = 0`; the
fuel `timeout / 10 + 2` covers every poll up to the first `elapsed > timeout`. -/
def readPacket (op timeout : Nat) (q : List Pkt) : Option (List Nat) × List Pkt × Nat :=
  readPacketLoop op timeout q (timeout / 10 + 2) 0

theorem dequeueIf_none_of_no_match (op : Nat) (q : List Pkt)
    (h : ∀ p ∈ q, p.opcode ≠ op) : dequeueIf op q = none := by
  induction q with
  | nil => rfl
  | cons p rest ih =>
    rw [dequeueIf]
    rw [if_neg (h p (List.mem_cons_self _ _))]
    rw [ih (fun x hx => h x (List.mem_cons_of_mem _ hx))]

theorem readPacketLoop_no_match (op timeout : Nat) (q : List Pkt)
    (h : ∀ p ∈ q, p.opcode ≠ op) :
    ∀ fuel elapsed, elapsed ≤ timeout + 10 → timeout < elapsed + 10 * fuel →
      (readPacketLoop op timeout q fuel elapsed).1 = none ∧
        timeout < (readPacketLoop op timeout q fuel elapsed).2.2 ∧
        (readPacketLoop op timeout q fuel elapsed).2.2 ≤ timeout + 10 ∧
        (readPacketLoop op timeout q fuel elapsed).2.1 = q := by
  intro fuel
  induction fuel with
  | zero =>
    intro elapsed hle hgt
    refine ⟨rfl, ?_, ?_, rfl⟩
    · show timeout < elapsed
      omega
    · show elapsed ≤ timeout + 10
      omega
  | succ m ih =>
    intro elapsed hle hgt
    rw [readPacketLoop, dequeueIf_none_of_no_match op q h]
    by_cases hexp : timeout < elapsed
    · rw [if_pos hexp]
      refine ⟨rfl, hexp, ?_, rfl⟩
      show elapsed ≤ timeout + 10
      omega
    · rw [if_neg hexp]
      exact ih (elapsed + 10) (by omega) (by omega)

/-- Claim C9: awaiting an opcode that is never enqueued fails with a Timeout,
no earlier than the timeout and no later than timeout plus one 10 ms poll
interval, leaving the queue untouched; if a matching packet is already queued,
the oldest packet with that opcode is removed and returned immediately
(elapsed 0). -/
theorem readPacket_timeout_and_fifo (op timeout : Nat) :
    (∀ q : List Pkt, (∀ p ∈ q, p.opcode ≠ op) →
      (readPacket op timeout q).1 = none ∧
        timeout < (readPacket op timeout q).2.2 ∧
        (readPacket op timeout q).2.2 ≤ timeout + 10 ∧
        (readPacket op timeout q).2.1 = q) ∧
    (∀ q1 q2 : List Pkt, ∀ pkt : Pkt, pkt.opcode = op → (∀ p ∈ q1, p.opcode ≠ op) →
      readPacket op timeout (q1 ++ pkt :: q2) = (some pkt.payload, q1 ++ q2, 0)) := by
  constructor
  · intro q hq
    exact readPacketLoop_no_match op timeout q hq (timeout / 10 + 2) 0
      (by omega) (by omega)
  · intro q1 q2 pkt hop hq1
    have hdq : dequeueIf op (q1 ++ pkt :: q2) = some (pkt, q1 ++ q2) := by
      induction q1 with
      | nil =>
        rw [List.nil_append, dequeueIf, if_pos hop, List.nil_append]
      | cons p rest ih =>
        rw [List.cons_append, dequeueIf]
        rw [if_neg (hq1 p (List.mem_cons_self _ _))]
        rw [ih (fun x hx => hq1 x (List.mem_cons_of_mem _ hx)), List.cons_append]
    show readPacketLoop op timeout (q1 ++ pkt :: q2) (timeout / 10 + 1 + 1) 0 = _
    rw [readPacketLoop, hdq]

theorem readPacket_timeout_and_fifo_witness :
    ((readPacket 0x61 50 [⟨0x44, [1]⟩]).1 = none ∧
      50 < (readPacket 0x61 50 [⟨0x44, [1]⟩]).2.2 ∧
      (readPacket 0x61 50 [⟨0x44, [1]⟩]).2.2 ≤ 50 + 10 ∧
      (readPacket 0x61 50 [⟨0x44, [1]⟩]).2.1 = [⟨0x44, [1]⟩]) ∧
    readPacket 0x61 50 ([⟨0x44, [1]⟩] ++ (⟨0x61, [7]⟩ : Pkt) :: [⟨0x61, [8]⟩])
      = (some [7], [⟨0x44, [1]⟩] ++ [⟨0x61, [8]⟩], 0) :=
  ⟨(readPacket_timeout_and_fifo 0x61 50).1 [⟨0x44, [1]⟩] (by decide),
   (readPacket_timeout_and_fifo 0x61 50).2 [⟨0x44, [1]⟩] [⟨0x61, [8]⟩] ⟨0x61, [7]⟩
     (by decide) (by decide)⟩

/-! ### Timestamps derived from file names (`parseYYMMDDhhmmss`, lines 966-977;
the identical `parseTimestampFromFileName` lives in DataService.ts lines 288-307) -/

/-- Days since 1970-01-01 of a proleptic-Gregorian civil date (month `m` is
1-based in `[1,12]`); standard civil-from-days arithmetic, used to model the
day count inside JavaScript `Date.UTC`. -/
def daysFromCivil (y m d : Int) : Int :=
  let yAdj : Int := if m ≤ 2 then y - 1 else y
  let era : Int := Int.fdiv yAdj 400
  let yoe : Int := yAdj - era * 400
  let mp : Int := if m ≤ 2 then m + 9 else m - 3
  let doy : Int := Int.fdiv (153 * mp + 2) 5 + d - 1
  let doe : Int := yoe * 365 + Int.fdiv yoe 4 - Int.fdiv yoe 100 + doy
  era * 146097 + doe - 719468

/-- JavaScript `Date.UTC(year, monthIndex, day, hh, mi, ss)` in milliseconds:
the zero-based month index is first normalized into the year (JS `MakeDay`);
day and time fields are plain arithmetic offsets (JS `MakeTime`/`MakeDate`). -/
def jsDateUTC (y mIdx d hh mi ss : Int) : Int :=
  let ym : Int := y + Int.fdiv mIdx 12
  let mn : Int := mIdx - 12 * Int.fdiv mIdx 12
  (daysFromCivil ym (mn + 1) d * 86400 + hh * 3600 + mi * 60 + ss) * 1000

example : daysFromCivil 1970 1 1 = 0 := by decide
example : daysFromCivil 2024 1 1 = 19723 := by decide
example : jsDateUTC 2024 0 1 0 0 0 = 1704067200000 := by decide

/-- Numeric value of two decimal digit characters
(`parseInt(s.slice(i, i+2), 10)`; the regex guarantees digits). -/
def digits2 (a b : Char) : Int := ((a.toNat - 48) * 10 + (b.toNat - 48) : Int)

/-- The regex match `name.match(/_(\d{12})\.csv$/)`: the captured group exists
exactly when the name ends in `.csv` immediately preceded by twelve decimal
digits immediately preceded by an underscore; the digits are returned in order. -/
def tsDigits (name : String) : Option (List Char) :=
  match name.toList.reverse with
  | 'v' :: 's' :: 'c' :: '.' :: rest =>
    let ds := (rest.take 12).reverse
    if ds.length = 12 ∧ ds.all Char.isDigit ∧ (rest.drop 12).head? = some '_' then
      some ds
    else none
  | _ => none

/-- Source `parseYYMMDDhhmmss` (and DataService's `parseTimestampFromFileName`,
which is the same algorithm): extract the 12-digit `YYMMDDhhmmss` suffix and
build `Date.UTC(2000+yy, MM-1, dd, hh, mm, ss)`; `none` when the regex fails. -/
def parseYYMMDDhhmmss (name : String) : Option Int :=
  match tsDigits name with
  | none => none
  | some [y1, y0, mo1, mo0, d1, d0, h1, h0, mi1, mi0, s1, s0] =>
    some (jsDateUTC (2000 + digits2 y1 y0) (digits2 mo1 mo0 - 1) (digits2 d1 d0)
      (digits2 h1 h0) (digits2 mi1 mi0) (digits2 s1 s0))
  | some _ => none

example : parseYYMMDDhhmmss "MOANA_1_1_240101000000.csv" = some 1704067200000 := by decide
example : parseYYMMDDhhmmss "MOANA_1_1_2401010000.csv" = none := by decide
example : parseYYMMDDhhmmss "README.md" = none := by decide

/-! ### File catalog reconciler (`downloadFiles` lines 1292-1450,
`downloadNewFilesOnly` lines 1538-1632) -/

/-- Source `interface FileInfo { fileName, size, timestamp }`; the timestamp
(a JS `Date`) is modelled by its millisecond value. -/
structure FileInfo where
  fileName : String
  size : Int
  timestamp : Int
deriving DecidableEq, Repr

/-- One iteration's input in the list-files loop: what the awaited `F` packet
produced.  `listEnd` covers the three ways the loop stops consuming entries:
`readPacket('F')` timing out (with or without a queued `E`), and the
full-sync-only `device.isConnected()` turning false — each does `break` before
any per-entry action.  `badJson` is an `F` payload `JSON.parse` rejects;
`entry` is a parsed payload with its `FileName` and `FileSizeEstimate`. -/
inductive ListResp where
  | listEnd
  | badJson
  | entry (fileName : String) (sizeEst : Int)
deriving DecidableEq, Repr

/-- Observable protocol actions of a reconciler pass: `sendList` = write `F`,
`sendNext` = write `N`, `fetch` = invoke `downloadFilePythonStyle` for a file,
`store` = hand the decompressed text to `storeFile`. -/
inductive Action where
  | sendList
  | sendNext
  | fetch (fileName : String)
  | store (fileName : String)
deriving DecidableEq, Repr

/-- Negation of the skip test `!ts || (now - ts.getTime()) > cutoff`: a file is
fresh when its name parses to a timestamp whose age is at most the cutoff. -/
def freshTs (now cutoffMs : Int) (name : String) : Bool :=
  match parseYYMMDDhhmmss name with
  | none => false
  | some ts => decide (now - ts ≤ cutoffMs)

/-- The `while (fileIndex < maxFiles)` loop of `downloadFiles` (full sync,
`maxFiles = 25`).  `dl name = some csv` means `downloadFilePythonStyle`
returned nonempty chunks which decompressed to `csv` (then stored); `none`
means it returned no data.  (`downloadFilePythonStyle` catches its own
read/write failures, so it returns rather than throws.)  Result: the `files`
array the loop builds, and the wire/storage actions in order. -/
def downloadFilesLoop (now : Int) (localNames : List String)
    (dl : String → Option String) : List ListResp → Nat → List FileInfo × List Action
  | [], _ => ([], [])
  | ev :: evs, fileIndex =>
    if 25 ≤ fileIndex then ([], [])
    else
      match ev with
      | .listEnd => ([], [])
      | .badJson =>
        -- JSON.parse failed: send 'N', advance, continue
        let r := downloadFilesLoop now localNames dl evs (fileIndex + 1)
        (r.1, .sendNext :: r.2)
      | .entry fileName sizeEst =>
        if freshTs now (72 * 3600 * 1000) fileName = false then
          -- skip old / unparsable-timestamp files
          let r := downloadFilesLoop now localNames dl evs (fileIndex + 1)
          (r.1, .sendNext :: r.2)
        else if localNames.contains fileName then
          -- fast skip if the file exists locally, but record it
          let r := downloadFilesLoop now localNames dl evs (fileIndex + 1)
          (⟨fileName, sizeEst, (parseYYMMDDhhmmss fileName).getD now⟩ :: r.1,
            .sendNext :: r.2)
        else
          match dl fileName with
          | some _ =>
            let r := downloadFilesLoop now localNames dl evs (fileIndex + 1)
            (⟨fileName, sizeEst, (parseYYMMDDhhmmss fileName).getD now⟩ :: r.1,
              .fetch fileName :: .store fileName :: .sendNext :: r.2)
          | none =>
            let r := downloadFilesLoop now localNames dl evs (fileIndex + 1)
            (r.1, .fetch fileName :: .sendNext :: r.2)

/-- Source `downloadFiles`: write `F`, run the loop, then append every stored
local file whose name is not among the produced `files` (the full-sync merge);
`storedFiles` is what `getStoredFiles()` returns at merge time. -/
def downloadFiles (now : Int) (localNames : List String) (dl : String → Option String)
    (evs : List ListResp) (storedFiles : List FileInfo) : List FileInfo × List Action :=
  let r := downloadFilesLoop now localNames dl evs 0
  let deviceFileNames := r.1.map FileInfo.fileName
  (r.1 ++ storedFiles.filter (fun lf => ¬ deviceFileNames.contains lf.fileName),
    .sendList :: r.2)

/-- The `while (fileIndex < maxFiles)` loop of `downloadNewFilesOnly`
(incremental pass, `maxFiles = 20`).  Differences from the full-sync loop,
as in the source: a JSON parse failure breaks instead of continuing, the
local-name check precedes the age check, the cutoff is 48 h, and files that
exist locally are not recorded. -/
def downloadNewFilesOnlyLoop (now : Int) (localNames : List String)
    (dl : String → Option String) : List ListResp → Nat → List FileInfo × List Action
  | [], _ => ([], [])
  | ev :: evs, fileIndex =>
    if 20 ≤ fileIndex then ([], [])
    else
      match ev with
      | .listEnd => ([], [])
      | .badJson => ([], [])
      | .entry fileName sizeEst =>
        if localNames.contains fileName then
          let r := downloadNewFilesOnlyLoop now localNames dl evs (fileIndex + 1)
          (r.1, .sendNext :: r.2)
        else if freshTs now (48 * 3600 * 1000) fileName = false then
          let r := downloadNewFilesOnlyLoop now localNames dl evs (fileIndex + 1)
          (r.1, .sendNext :: r.2)
        else
          match dl fileName with
          | some _ =>
            let r := downloadNewFilesOnlyLoop now localNames dl evs (fileIndex + 1)
            (⟨fileName, sizeEst, (parseYYMMDDhhmmss fileName).getD now⟩ :: r.1,
              .fetch fileName :: .store fileName :: .sendNext :: r.2)
          | none =>
            let r := downloadNewFilesOnlyLoop now localNames dl evs (fileIndex + 1)
            (r.1, .fetch fileName :: .sendNext :: r.2)

/-- Source `downloadNewFilesOnly`: write `F`, quick-check for an immediate `E`
response (return empty if present), then run the loop.  No local-file merge. -/
def downloadNewFilesOnly (now : Int) (localNames : List String)
    (dl : String → Option String) (immediateEnd : Bool) (evs : List ListResp) :
    List FileInfo × List Action :=
  if immediateEnd then ([], [.sendList])
  else
    let r := downloadNewFilesOnlyLoop now localNames dl evs 0
    (r.1, .sendList :: r.2)

theorem fetch_mem_downloadFilesLoop (now : Int) (ln : List String)
    (dl : String → Option String) (evs : List ListResp) :
    ∀ idx m, Action.fetch m ∈ (downloadFilesLoop now ln dl evs idx).2 →
      (∃ sz, ListResp.entry m sz ∈ evs) ∧
        freshTs now (72 * 3600 * 1000) m = true ∧ ln.contains m = false := by
  induction evs with
  | nil => intro idx m hm; simp [downloadFilesLoop] at hm
  | cons ev evs ih =>
    intro idx m hm
    cases ev with
    | listEnd => simp [downloadFilesLoop] at hm
    | badJson =>
      rw [downloadFilesLoop] at hm
      by_cases hidx : 25 ≤ idx
      · rw [if_pos hidx] at hm; simp at hm
      · rw [if_neg hidx] at hm
        simp only [List.mem_cons] at hm
        rcases hm with hm | hm
        · exact absurd hm (by simp)
        · obtain ⟨⟨sz, hsz⟩, hf, hl⟩ := ih (idx + 1) m hm
          exact ⟨⟨sz, List.mem_cons_of_mem _ hsz⟩, hf, hl⟩
    | entry n s =>
      rw [downloadFilesLoop] at hm
      by_cases hidx : 25 ≤ idx
      · rw [if_pos hidx] at hm; simp at hm
      · rw [if_neg hidx] at hm
        by_cases hfr : freshTs now (72 * 3600 * 1000) n = false
        · rw [if_pos hfr] at hm
          simp only [List.mem_cons] at hm
          rcases hm with hm | hm
          · exact absurd hm (by simp)
          · obtain ⟨⟨sz, hsz⟩, hf, hl⟩ := ih (idx + 1) m hm
            exact ⟨⟨sz, List.mem_cons_of_mem _ hsz⟩, hf, hl⟩
        · rw [if_neg hfr] at hm
          by_cases hloc : ln.contains n
          · rw [if_pos hloc] at hm
            simp only [List.mem_cons] at hm
            rcases hm with hm | hm
            · exact absurd hm (by simp)
            · obtain ⟨⟨sz, hsz⟩, hf, hl⟩ := ih (idx + 1) m hm
              exact ⟨⟨sz, List.mem_cons_of_mem _ hsz⟩, hf, hl⟩
          · rw [if_neg hloc] at hm
            have hmain : m = n ∨ Action.fetch m ∈ (downloadFilesLoop now ln dl evs (idx + 1)).2 := by
              cases hdl : dl n with
              | some csv =>
                rw [hdl] at hm
                simp only [List.mem_cons] at hm
                rcases hm with hm | hm | hm | hm
                · exact Or.inl (by simpa using hm)
                · exact absurd hm (by simp)
                · exact absurd hm (by simp)
                · exact Or.inr hm
              | none =>
                rw [hdl] at hm
                simp only [List.mem_cons] at hm
                rcases hm with hm | hm | hm
                · exact Or.inl (by simpa using hm)
                · exact absurd hm (by simp)
                · exact Or.inr hm
            rcases hmain with rfl | hm2
            · refine ⟨⟨s, List.mem_cons_self _ _⟩, ?_, ?_⟩
              · cases hb : freshTs now (72 * 3600 * 1000) m
                · exact absurd hb hfr
                · rfl
              · cases hb : ln.contains m
                · rfl
                · exact absurd hb hloc
            · obtain ⟨⟨sz, hsz⟩, hf, hl⟩ := ih (idx + 1) m hm2
              exact ⟨⟨sz, List.mem_cons_of_mem _ hsz⟩, hf, hl⟩

theorem fetch_mem_downloadNewFilesOnlyLoop (now : Int) (ln : List String)
    (dl : String → Option String) (evs : List ListResp) :
    ∀ idx m, Action.fetch m ∈ (downloadNewFilesOnlyLoop now ln dl evs idx).2 →
      (∃ sz, ListResp.entry m sz ∈ evs) ∧
        freshTs now (48 * 3600 * 1000) m = true ∧ ln.contains m = false := by
  induction evs with
  | nil => intro idx m hm; simp [downloadNewFilesOnlyLoop] at hm
  | cons ev evs ih =>
    intro idx m hm
    cases ev with
    | listEnd => simp [downloadNewFilesOnlyLoop] at hm
    | badJson => simp [downloadNewFilesOnlyLoop] at hm
    | entry n s =>
      rw [downloadNewFilesOnlyLoop] at hm
      by_cases hidx : 20 ≤ idx
      · rw [if_pos hidx] at hm; simp at hm
      · rw [if_neg hidx] at hm
        by_cases hloc : ln.contains n
        · rw [if_pos hloc] at hm
          simp only [List.mem_cons] at hm
          rcases hm with hm | hm
          · exact absurd hm (by simp)
          · obtain ⟨⟨sz, hsz⟩, hf, hl⟩ := ih (idx + 1) m hm
            exact ⟨⟨sz, List.mem_cons_of_mem _ hsz⟩, hf, hl⟩
        · rw [if_neg hloc] at hm
          by_cases hfr : freshTs now (48 * 3600 * 1000) n = false
          · rw [if_pos hfr] at hm
            simp only [List.mem_cons] at hm
            rcases hm with hm | hm
            · exact absurd hm (by simp)
            · obtain ⟨⟨sz, hsz⟩, hf, hl⟩ := ih (idx + 1) m hm
              exact ⟨⟨sz, List.mem_cons_of_mem _ hsz⟩, hf, hl⟩
          · rw [if_neg hfr] at hm
            have hmain : m = n ∨
                Action.fetch m ∈ (downloadNewFilesOnlyLoop now ln dl evs (idx + 1)).2 := by
              cases hdl : dl n with
              | some csv =>
                rw [hdl] at hm
                simp only [List.mem_cons] at hm
                rcases hm with hm | hm | hm | hm
                · exact Or.inl (by simpa using hm)
                · exact absurd hm (by simp)
                · exact absurd hm (by simp)
                · exact Or.inr hm
              | none =>
                rw [hdl] at hm
                simp only [List.mem_cons] at hm
                rcases hm with hm | hm | hm
                · exact Or.inl (by simpa using hm)
                · exact absurd hm (by simp)
                · exact Or.inr hm
            rcases hmain with rfl | hm2
            · refine ⟨⟨s, List.mem_cons_self _ _⟩, ?_, ?_⟩
              · cases hb : freshTs now (48 * 3600 * 1000) m
                · exact absurd hb hfr
                · rfl
              · cases hb : ln.contains m
                · rfl
                · exact absurd hb hloc
            · obtain ⟨⟨sz, hsz⟩, hf, hl⟩ := ih (idx + 1) m hm2
              exact ⟨⟨sz, List.mem_cons_of_mem _ hsz⟩, hf, hl⟩

/-- Claim C5: a file entry whose derived timestamp does not parse or whose age
exceeds the active cutoff (72 h on the full-sync pass, 48 h on the incremental
pass) is answered with the skip/advance write `N` and is never fetched,
regardless of whether its name is in the local-names set. -/
theorem stale_entries_skipped (now : Int) (ln : List String)
    (dl : String → Option String) (name : String) :
    (freshTs now (72 * 3600 * 1000) name = false →
      (∀ sz evs idx, idx < 25 →
        downloadFilesLoop now ln dl (.entry name sz :: evs) idx
          = ((downloadFilesLoop now ln dl evs (idx + 1)).1,
             .sendNext :: (downloadFilesLoop now ln dl evs (idx + 1)).2)) ∧
      (∀ evs stored, Action.fetch name ∉ (downloadFiles now ln dl evs stored).2)) ∧
    (freshTs now (48 * 3600 * 1000) name = false →
      (∀ sz evs idx, idx < 20 → ln.contains name = false →
        downloadNewFilesOnlyLoop now ln dl (.entry name sz :: evs) idx
          = ((downloadNewFilesOnlyLoop now ln dl evs (idx + 1)).1,
             .sendNext :: (downloadNewFilesOnlyLoop now ln dl evs (idx + 1)).2)) ∧
      (∀ immediateEnd evs,
        Action.fetch name ∉ (downloadNewFilesOnly now ln dl immediateEnd evs).2)) := by
  constructor
  · intro hstale
    constructor
    · intro sz evs idx hidx
      rw [downloadFilesLoop, if_neg (by omega : ¬ 25 ≤ idx), if_pos hstale]
    · intro evs stored hmem
      rw [downloadFiles] at hmem
      simp only [List.mem_cons] at hmem
      rcases hmem with hmem | hmem
      · exact absurd hmem (by simp)
      · obtain ⟨_, hf, _⟩ := fetch_mem_downloadFilesLoop now ln dl evs 0 name hmem
        rw [hstale] at hf
        exact absurd hf (by simp)
  · intro hstale
    constructor
    · intro sz evs idx hidx hloc
      rw [downloadNewFilesOnlyLoop, if_neg (by omega : ¬ 20 ≤ idx)]
      rw [if_neg (by rw [hloc]; simp), if_pos hstale]
    · intro immediateEnd evs hmem
      rw [downloadNewFilesOnly] at hmem
      by_cases hE : immediateEnd
      · rw [if_pos hE] at hmem
        simp at hmem
      · rw [if_neg hE] at hmem
        simp only [List.mem_cons] at hmem
        rcases hmem with hmem | hmem
        · exact absurd hmem (by simp)
        · obtain ⟨_, hf, _⟩ := fetch_mem_downloadNewFilesOnlyLoop now ln dl evs 0 name hmem
          rw [hstale] at hf
          exact absurd hf (by simp)

theorem stale_entries_skipped_witness :
    downloadFilesLoop 0 [] (fun _ => none) [.entry "foo.csv" 3] 0
      = ((downloadFilesLoop 0 [] (fun _ => none) [] 1).1,
         .sendNext :: (downloadFilesLoop 0 [] (fun _ => none) [] 1).2) :=
  ((stale_entries_skipped 0 [] (fun _ => none) "foo.csv").1 (by decide)).1
    3 [] 0 (by decide)

/-- Claim C6: a file entry whose name is in the local-names set is never handed
to the chunked-transfer fetch — on both passes it is answered with the
skip/advance write `N` — and a pass whose catalog consists entirely of locally
known names performs no fetch at all (so repeating a pass over an identical,
fully stored catalog fetches nothing). -/
theorem local_entries_never_fetched :
    (∀ (now : Int) (ln : List String) (dl : String → Option String) (name : String)
        (sz : Int) (evs : List ListResp) (idx : Nat),
      ln.contains name = true → idx < 25 →
        (downloadFilesLoop now ln dl (.entry name sz :: evs) idx).2
          = .sendNext :: (downloadFilesLoop now ln dl evs (idx + 1)).2) ∧
    (∀ (now : Int) (ln : List String) (dl : String → Option String) (name : String)
        (sz : Int) (evs : List ListResp) (idx : Nat),
      ln.contains name = true → idx < 20 →
        downloadNewFilesOnlyLoop now ln dl (.entry name sz :: evs) idx
          = ((downloadNewFilesOnlyLoop now ln dl evs (idx + 1)).1,
             .sendNext :: (downloadNewFilesOnlyLoop now ln dl evs (idx + 1)).2)) ∧
    (∀ (now : Int) (ln : List String) (dl : String → Option String) (name : String),
      ln.contains name = true →
        (∀ evs stored, Action.fetch name ∉ (downloadFiles now ln dl evs stored).2) ∧
        (∀ immediateEnd evs,
          Action.fetch name ∉ (downloadNewFilesOnly now ln dl immediateEnd evs).2)) ∧
    (∀ (now : Int) (ln : List String) (dl : String → Option String) (evs : List ListResp),
      (∀ n s, ListResp.entry n s ∈ evs → ln.contains n = true) →
        (∀ stored m, Action.fetch m ∉ (downloadFiles now ln dl evs stored).2) ∧
        (∀ immediateEnd m,
          Action.fetch m ∉ (downloadNewFilesOnly now ln dl immediateEnd evs).2)) := by
  have hfullNo : ∀ (now : Int) (ln : List String) (dl : String → Option String)
      (name : String), ln.contains name = true →
      ∀ evs stored, Action.fetch name ∉ (downloadFiles now ln dl evs stored).2 := by
    intro now ln dl name hloc evs stored hmem
    rw [downloadFiles] at hmem
    simp only [List.mem_cons] at hmem
    rcases hmem with hmem | hmem
    · exact absurd hmem (by simp)
    · obtain ⟨_, _, hl⟩ := fetch_mem_downloadFilesLoop now ln dl evs 0 name hmem
      rw [hloc] at hl
      exact absurd hl (by simp)
  have hincrNo : ∀ (now : Int) (ln : List String) (dl : String → Option String)
      (name : String), ln.contains name = true →
      ∀ immediateEnd evs,
        Action.fetch name ∉ (downloadNewFilesOnly now ln dl immediateEnd evs).2 := by
    intro now ln dl name hloc immediateEnd evs hmem
    rw [downloadNewFilesOnly] at hmem
    by_cases hE : immediateEnd
    · rw [if_pos hE] at hmem
      simp at hmem
    · rw [if_neg hE] at hmem
      simp only [List.mem_cons] at hmem
      rcases hmem with hmem | hmem
      · exact absurd hmem (by simp)
      · obtain ⟨_, _, hl⟩ := fetch_mem_downloadNewFilesOnlyLoop now ln dl evs 0 name hmem
        rw [hloc] at hl
        exact absurd hl (by simp)
  refine ⟨?_, ?_, ?_, ?_⟩
  · intro now ln dl name sz evs idx hloc hidx
    rw [downloadFilesLoop, if_neg (by omega : ¬ 25 ≤ idx)]
    by_cases hfr : freshTs now (72 * 3600 * 1000) name = false
    · rw [if_pos hfr]
    · rw [if_neg hfr, if_pos hloc]
  · intro now ln dl name sz evs idx hloc hidx
    rw [downloadNewFilesOnlyLoop, if_neg (by omega : ¬ 20 ≤ idx), if_pos hloc]
  · intro now ln dl name hloc
    exact ⟨hfullNo now ln dl name hloc, hincrNo now ln dl name hloc⟩
  · intro now ln dl evs hall
    constructor
    · intro stored m hmem
      rw [downloadFiles] at hmem
      simp only [List.mem_cons] at hmem
      rcases hmem with hmem | hmem
      · exact absurd hmem (by simp)
      · obtain ⟨⟨sz, hsz⟩, _, hl⟩ := fetch_mem_downloadFilesLoop now ln dl evs 0 m hmem
        rw [hall m sz hsz] at hl
        exact absurd hl (by simp)
    · intro immediateEnd m hmem
      rw [downloadNewFilesOnly] at hmem
      by_cases hE : immediateEnd
      · rw [if_pos hE] at hmem
        simp at hmem
      · rw [if_neg hE] at hmem
        simp only [List.mem_cons] at hmem
        rcases hmem with hmem | hmem
        · exact absurd hmem (by simp)
        · obtain ⟨⟨sz, hsz⟩, _, hl⟩ :=
            fetch_mem_downloadNewFilesOnlyLoop now ln dl evs 0 m hmem
          rw [hall m sz hsz] at hl
          exact absurd hl (by simp)

theorem local_entries_never_fetched_witness :
    (downloadFilesLoop 0 ["a_240101000000.csv"] (fun _ => some "x")
        [.entry "a_240101000000.csv" 7] 0).2
      = .sendNext :: (downloadFilesLoop 0 ["a_240101000000.csv"] (fun _ => some "x") [] 1).2 :=
  local_entries_never_fetched.1 0 ["a_240101000000.csv"] (fun _ => some "x")
    "a_240101000000.csv" 7 [] 0 (by decide) (by decide)

/-- Spec wording for C2: a catalog is sorted newest-first when every adjacent
pair is non-increasing in timestamp. -/
def sortedNewestFirst : List FileInfo → Bool
  | [] => true
  | [_] => true
  | a :: b :: l => decide (b.timestamp ≤ a.timestamp) && sortedNewestFirst (b :: l)

/-- Counterexample to claim C2 as stated: a full-sync pass that downloads an
older file before a newer one returns the catalog in traversal order, which is
not sorted newest-first (the source appends and never sorts). -/
theorem downloadFiles_result_not_sorted :
    sortedNewestFirst
        (downloadFiles (jsDateUTC 2024 0 3 0 0 0) [] (fun _ => some "csv")
          [.entry "M_240101120000.csv" 5, .entry "M_240102120000.csv" 5] []).1
      = false := by
  decide

/-- Claim C2 amended: after the remote list is exhausted, the full-sync
reconciler appends every locally persisted file whose name is not in the
produced list, keeping all produced entries; the final catalog is the produced
list in traversal order followed by those local files, and is not re-sorted
newest-first. -/
theorem downloadFiles_merges_unlisted_locals (now : Int) (ln : List String)
    (dl : String → Option String) (evs : List ListResp) (stored : List FileInfo) :
    (∀ pf ∈ (downloadFilesLoop now ln dl evs 0).1,
      pf ∈ (downloadFiles now ln dl evs stored).1) ∧
    (∀ lf ∈ stored,
      ((downloadFilesLoop now ln dl evs 0).1.map FileInfo.fileName).contains lf.fileName
          = false →
        lf ∈ (downloadFiles now ln dl evs stored).1) := by
  constructor
  · intro pf hpf
    rw [downloadFiles]
    exact List.mem_append_left _ hpf
  · intro lf hlf hnot
    rw [downloadFiles]
    refine List.mem_append_right _ ?_
    rw [List.mem_filter]
    refine ⟨hlf, ?_⟩
    simp only [hnot]
    decide

theorem downloadFiles_merges_unlisted_locals_witness :
    (⟨"loc_240101000000.csv", 1, 5⟩ : FileInfo)
      ∈ (downloadFiles 0 [] (fun _ => none) [] [⟨"loc_240101000000.csv", 1, 5⟩]).1 :=
  (downloadFiles_merges_unlisted_locals 0 [] (fun _ => none) []
      [⟨"loc_240101000000.csv", 1, 5⟩]).2
    ⟨"loc_240101000000.csv", 1, 5⟩ (by decide) (by decide)

/-! ### Idle auto-disconnect timers (`scheduleAutoDisconnect` lines 985-1007,
`scheduleAutoDisconnectFast` lines 1692-1707, `autoDisconnectWithDevice`
lines 1709-1779; `checkForNewFilesOnly` arms the fast variant after a
periodic-reconnect sync pass, lines 1659-1671) -/

/-- The activity state the `scheduleAutoDisconnect` timer callback inspects:
`activityTracker.current.isDownloading`, the size of
`activityTracker.current.activeOperations`, and `state.syncingFiles`. -/
structure ActivityState where
  isDownloading : Bool
  activeOpsCount : Nat
  syncingFiles : Bool
deriving DecidableEq, Repr

/-- The callback's busy test
`isDownloading || activeOperations.size > 0 || syncingFiles`. -/
def activityBusy (a : ActivityState) : Bool :=
  a.isDownloading || decide (0 < a.activeOpsCount) || a.syncingFiles

/-- Effects a timer callback produces: the wire-level `.` disconnect packet,
the device- and manager-level link cancellations, the `AUTO_DISCONNECT`
dispatch, or re-arming the timer (`scheduleAutoDisconnect()` called again). -/
inductive Effect where
  | sendDisconnectPkt
  | bleCancel
  | managerCancel
  | dispatchAutoDisconnect
  | rearmTimer
deriving DecidableEq, Repr

/-- Source `autoDisconnectWithDevice` with a device present: write the `.` disconnect
packet, cancel the connection at the device and then the manager level, and
dispatch `AUTO_DISCONNECT` (subscription removal and delays elided). -/
def autoDisconnectWithDevice : List Effect :=
  [.sendDisconnectPkt, .bleCancel, .managerCancel, .dispatchAutoDisconnect]

/-- Firing of the timer armed by `scheduleAutoDisconnect` (full delay): when
the activity check reports busy, it re-arms itself and returns without
disconnecting; otherwise it runs `autoDisconnectWithDevice`. -/
def fireAutoDisconnect (a : ActivityState) : List Effect :=
  if activityBusy a then [.rearmTimer] else autoDisconnectWithDevice

/-- Firing of the timer armed by `scheduleAutoDisconnectFast` (halved delay,
armed after a periodic-reconnect sync pass): the callback runs
`autoDisconnectWithDevice` without consulting the activity state. -/
def fireAutoDisconnectFast (_a : ActivityState) : List Effect :=
  autoDisconnectWithDevice

/-- Counterexample to claim C3 as stated: the idle-disconnect timer armed after
a periodic-reconnect sync pass (`scheduleAutoDisconnectFast`) sends the
disconnect command even though the activity flag is set, and does not re-arm. -/
theorem fast_idle_timer_ignores_activity :
    activityBusy ⟨true, 1, true⟩ = true ∧
    Effect.sendDisconnectPkt ∈ fireAutoDisconnectFast ⟨true, 1, true⟩ ∧
    Effect.rearmTimer ∉ fireAutoDisconnectFast ⟨true, 1, true⟩ := by
  refine ⟨rfl, ?_, ?_⟩ <;> decide

/-- Claim C3 amended: when the standard idle-disconnect timer
(`scheduleAutoDisconnect`) fires while the activity flag is set, no disconnect
command is sent and the timer re-arms itself; the halved-delay timer armed
after a periodic-reconnect pass performs the disconnect unconditionally. -/
theorem busy_idle_timer_defers (a : ActivityState) (h : activityBusy a = true) :
    fireAutoDisconnect a = [Effect.rearmTimer] ∧
      Effect.sendDisconnectPkt ∉ fireAutoDisconnect a := by
  rw [fireAutoDisconnect, if_pos h]
  exact ⟨rfl, by decide⟩

theorem busy_idle_timer_defers_witness :
    fireAutoDisconnect ⟨true, 0, false⟩ = [Effect.rearmTimer] ∧
      Effect.sendDisconnectPkt ∉ fireAutoDisconnect ⟨true, 0, false⟩ :=
  busy_idle_timer_defers ⟨true, 0, false⟩ (by decide)

/-! ### Periodic-reconnect timer (`startPeriodicReconnect` lines 1949-2003) -/

/-- Timer bookkeeping for `startPeriodicReconnect`: `handle` is
`timersRef.current.periodicReconnect`, `live` lists the intervals created by
`setInterval` and not yet cleared (in creation order, newest first), `nextId`
is a fresh interval identity, `cleanup` is `immediateCleanupRef.current`. -/
structure TimerSt where
  handle : Option Nat
  live : List Nat
  nextId : Nat
  cleanup : Bool
deriving DecidableEq, Repr

/-- Source `startPeriodicReconnect`: bail out during logout cleanup; otherwise
clear the tracked interval if one exists (`clearInterval` + null the ref), then
`setInterval` a fresh timer and track it. -/
def startPeriodicReconnect (s : TimerSt) : TimerSt :=
  if s.cleanup then s
  else
    let cleared :=
      match s.handle with
      | some h => { s with handle := none, live := s.live.erase h }
      | none => s
    { cleared with
        handle := some cleared.nextId,
        live := cleared.nextId :: cleared.live,
        nextId := cleared.nextId + 1 }

/-- A sequence of `n` successive calls to `startPeriodicReconnect`. -/
def startCalls (n : Nat) (s : TimerSt) : TimerSt :=
  Nat.iterate startPeriodicReconnect n s

/-- The bookkeeping invariant: the only live interval, if any, is the tracked
one. -/
def TimerSt.tracked (s : TimerSt) : Prop := s.live = s.handle.toList

theorem startPeriodicReconnect_step (s : TimerSt)
    (hc : s.cleanup = false) (ht : s.tracked) :
    (startPeriodicReconnect s).tracked ∧
      (startPeriodicReconnect s).cleanup = false ∧
      (startPeriodicReconnect s).live.length = 1 := by
  rw [startPeriodicReconnect, if_neg (by rw [hc]; simp)]
  cases hh : s.handle with
  | none =>
    rw [TimerSt.tracked, hh] at ht
    refine ⟨?_, hc, ?_⟩
    · show s.nextId :: s.live = [s.nextId]
      rw [ht]
      rfl
    · show (s.nextId :: s.live).length = 1
      rw [ht]
      rfl
  | some h =>
    rw [TimerSt.tracked, hh] at ht
    have herase : s.live.erase h = [] := by
      rw [ht]
      simp [Option.toList, List.erase]
    refine ⟨?_, hc, ?_⟩
    · show s.nextId :: s.live.erase h = [s.nextId]
      rw [herase]
    · show (s.nextId :: s.live.erase h).length = 1
      rw [herase]
      rfl

/-- Claim C4: with the bookkeeping invariant holding and no logout cleanup in
progress, any nonempty sequence of successive `startPeriodicReconnect` calls
(two in a row included) leaves exactly one live interval: each call clears the
tracked interval before `setInterval` creates the new one. -/
theorem periodic_reconnect_single_interval (s : TimerSt) (n : Nat)
    (hc : s.cleanup = false) (ht : s.tracked) :
    (startCalls (n + 1) s).live.length = 1 ∧ (startCalls (n + 1) s).tracked := by
  have key : ∀ m, (startCalls (m + 1) s).tracked ∧
      (startCalls (m + 1) s).cleanup = false ∧
      (startCalls (m + 1) s).live.length = 1 := by
    intro m
    induction m with
    | zero =>
      exact startPeriodicReconnect_step s hc ht
    | succ k ihk =>
      obtain ⟨ht2, hc2, _⟩ := ihk
      obtain ⟨h1, h2, h3⟩ := startPeriodicReconnect_step (startCalls (k + 1) s) hc2 ht2
      refine ⟨?_, ?_, ?_⟩
      · show (startCalls (k + 1 + 1) s).tracked
        rw [startCalls, Function.iterate_succ_apply']
        exact h1
      · show (startCalls (k + 1 + 1) s).cleanup = false
        rw [startCalls, Function.iterate_succ_apply']
        exact h2
      · show (startCalls (k + 1 + 1) s).live.length = 1
        rw [startCalls, Function.iterate_succ_apply']
        exact h3
  exact ⟨(key n).2.2, (key n).1⟩

theorem periodic_reconnect_single_interval_witness :
    (startCalls 2 ⟨some 5, [5], 6, false⟩).live.length = 1 ∧
      (startCalls 2 ⟨some 5, [5], 6, false⟩).tracked :=
  periodic_reconnect_single_interval ⟨some 5, [5], 6, false⟩ 1 rfl rfl

/-! ### Authentication retry (`authenticateWithRetry` lines 908-953, `connect`
phases 6-7 lines 1234-1256) -/

/-- Whether the character list `pat` occurs at the head of `text`. -/
def charsStartWith : List Char → List Char → Bool
  | [], _ => true
  | _ :: _, [] => false
  | p :: ps, c :: cs => decide (p = c) && charsStartWith ps cs

/-- Whether the character list `pat` occurs contiguously anywhere in `text`
(JavaScript `String.prototype.includes`). -/
def charsContain (pat : List Char) : List Char → Bool
  | [] => pat.isEmpty
  | c :: cs => charsStartWith pat (c :: cs) || charsContain pat cs

/-- Outcome of one `readPacket('a', AUTH_TIMEOUT)` await inside an
authentication attempt: a timeout, or a response payload decoded as utf-8. -/
inductive AuthResp where
  | timeout
  | payload (s : String)
deriving DecidableEq, Repr

/-- One attempt body of `authenticateWithRetry`: await the `a` response and
test `authResponseStr.includes('"Authenticated":true')`; a timeout or a
response without the marker throws (the `Authentication failed` error).
The logout-cleanup aborts (`immediateCleanupRef`) and the pre-attempt
`device.isConnected()` check are not modelled: claim C1 concerns runs without
logout on an established link. -/
def authAttempt (r : AuthResp) : Except String Unit :=
  match r with
  | .timeout => .error "Timeout waiting for opcode a"
  | .payload s =>
    if charsContain ("\"Authenticated\":true".toList) s.toList then .ok ()
    else .error ("Authentication failed - invalid response: " ++ s)

/-- The `while (authAttempts < maxAuthAttempts && !authSuccessful)` loop:
one entry of `resps` per attempt (a missing entry is an attempt that timed
out).  Each attempt's error is caught by the in-loop `catch` (log, settle
delay, retry); when the attempt budget is exhausted the loop simply exits.
`Except.error` would model an exception reaching the caller of
`authenticateWithRetry`; `Except.ok b` is a normal return with `authSuccessful
= b`. -/
def authGo : Nat → List AuthResp → Except String Bool
  | 0, _ => .ok false
  | r + 1, resps =>
    match authAttempt (resps.headD .timeout) with
    | .ok () => .ok true
    | .error _ => authGo r resps.tail

/-- Source `authenticateWithRetry` with `maxAuthAttempts = 3`. -/
def authenticateWithRetry (responses : List AuthResp) : Except String Bool :=
  authGo 3 responses

/-- What `connect` reaches after phase 6: an exception from
`authenticateWithRetry` would land in the catch block (`CONNECT_FAIL` with the
error text); a normal return proceeds to phase 7 and dispatches
`CONNECT_SUCCESS`. -/
inductive ConnectOutcome where
  | connected
  | failedWith (msg : String)
deriving DecidableEq, Repr

/-- Phases 6-7 of `connect` as a function of the authentication responses. -/
def connectAuthPhase (responses : List AuthResp) : ConnectOutcome :=
  match authenticateWithRetry responses with
  | .ok _ => .connected
  | .error e => .failedWith e

theorem authGo_never_throws (r : Nat) :
    ∀ resps, ∃ b, authGo r resps = .ok b := by
  induction r with
  | zero => intro resps; exact ⟨false, rfl⟩
  | succ m ih =>
    intro resps
    rw [authGo]
    cases authAttempt (resps.headD .timeout) with
    | ok u => cases u; exact ⟨true, rfl⟩
    | error e => exact ih resps.tail

/-- Claim C1 is violated by the code: `authenticateWithRetry` catches every
failed attempt, and once the 3-attempt budget is exhausted its loop exits and
the function returns normally with `authSuccessful` still false — the flag is
never re-checked — so `connect` proceeds to phase 7 and dispatches
`CONNECT_SUCCESS`.  In particular, three authenticate responses without
`"Authenticated":true` leave the connect attempt connected instead of failing
with an authentication error. -/
theorem auth_exhaustion_still_connects :
    (∀ responses, ∃ b, authenticateWithRetry responses = .ok b) ∧
    authenticateWithRetry
        (List.replicate 3 (AuthResp.payload "\"Authenticated\":false")) = .ok false ∧
    connectAuthPhase (List.replicate 3 (AuthResp.payload "\"Authenticated\":false"))
      = .connected := by
  refine ⟨fun responses => authGo_never_throws 3 responses, rfl, rfl⟩

/-! ### Local file storage (DataService.ts: `storeFile` lines 43-56,
`getStoredFiles` lines 78-108, `keepOnlyLatestFiles` lines 110-133,
`deleteFile` lines 190-203) -/

/-- One entry of the `moana-data/` directory: its file name, and the
millisecond timestamp `getStoredFiles` falls back to when the name carries no
parsable 12-digit suffix (built from the entry's modification time). -/
structure FileEntry where
  name : String
  modTime : Int
deriving DecidableEq, Repr

/-- The `.endsWith('.csv')` filter of `getStoredFiles`/`getLocalFileNames`. -/
def isCsv (e : FileEntry) : Bool :=
  match e.name.toList.reverse with
  | 'v' :: 's' :: 'c' :: '.' :: _ => true
  | _ => false

/-- The timestamp `getStoredFiles` attaches to an entry:
`parseTimestampFromFileName(fileName) || new Date(modificationTime)`; for a
name with a parsable 12-digit suffix this is the filename-derived timestamp. -/
def entryTs (e : FileEntry) : Int := (parseYYMMDDhhmmss e.name).getD e.modTime

/-- The newest-first comparator `(a, b) => b.timestamp - a.timestamp`. -/
def newerEq (a b : FileEntry) : Prop := entryTs b ≤ entryTs a

instance : DecidableRel newerEq := fun _ _ => Int.decLe _ _

instance : IsTotal FileEntry newerEq := ⟨fun a b => le_total (entryTs b) (entryTs a)⟩

instance : IsTrans FileEntry newerEq := ⟨fun _ _ _ hab hbc => le_trans hbc hab⟩

/-- Source `getStoredFiles`: the stored `.csv` entries, sorted newest-first. -/
def getStoredFiles (store : List FileEntry) : List FileEntry :=
  List.insertionSort newerEq (store.filter isCsv)

/-- Source `keepOnlyLatestFiles(maxFiles)`: when more than `maxFiles` csv files are
stored, `deleteFile` (removal by name) every file beyond the first `maxFiles`
of the newest-first listing. -/
def keepOnlyLatestFiles (maxFiles : Nat) (store : List FileEntry) : List FileEntry :=
  let allFiles := getStoredFiles store
  if allFiles.length ≤ maxFiles then store
  else
    let filesToDelete := (allFiles.drop maxFiles).map FileEntry.name
    store.filter (fun e => ¬ filesToDelete.contains e.name)

/-- Model of `FileSystem.writeAsStringAsync`: create or overwrite the named file; `now`
is the write time that becomes the entry's modification time. -/
def writeFile (name : String) (now : Int) : List FileEntry → List FileEntry
  | [] => [⟨name, now⟩]
  | e :: rest => if e.name = name then ⟨name, now⟩ :: rest else e :: writeFile name now rest

/-- Source `storeFile`: write the file, then always `keepOnlyLatestFiles(10)`. -/
def storeFile (name : String) (now : Int) (store : List FileEntry) : List FileEntry :=
  keepOnlyLatestFiles 10 (writeFile name now store)

theorem keepOnlyLatestFiles_bound (store : List FileEntry) :
    ((keepOnlyLatestFiles 10 store).filter isCsv).length ≤ 10 ∧
      (∀ k ∈ keepOnlyLatestFiles 10 store, isCsv k = true →
        ∀ d ∈ store, isCsv d = true → d ∉ keepOnlyLatestFiles 10 store →
          ((store.map FileEntry.name).Nodup → entryTs d ≤ entryTs k)) := by
  have hperm : (getStoredFiles store).Perm (store.filter isCsv) :=
    List.perm_insertionSort newerEq (store.filter isCsv)
  rw [keepOnlyLatestFiles]
  by_cases hle : (getStoredFiles store).length ≤ 10
  · rw [if_pos hle]
    constructor
    · rw [← hperm.length_eq]
      exact hle
    · intro k _ _ d hd _ hdnot
      exact absurd hd hdnot
  · rw [if_neg hle]
    set p : FileEntry → Bool :=
      fun e => ¬ (((getStoredFiles store).drop 10).map FileEntry.name).contains e.name with hp
    have hdropname : ∀ e ∈ (getStoredFiles store).drop 10, p e = false := by
      intro e he
      have hmem : e.name ∈ ((getStoredFiles store).drop 10).map FileEntry.name :=
        List.mem_map_of_mem _ he
      have hc : (((getStoredFiles store).drop 10).map FileEntry.name).contains e.name
          = true := List.elem_iff.mpr hmem
      rw [hp]
      show decide
          (¬ (((getStoredFiles store).drop 10).map FileEntry.name).contains e.name = true)
        = false
      rw [hc]
      decide
    constructor
    · have hcomm : (store.filter p).filter isCsv = (store.filter isCsv).filter p := by
        rw [List.filter_filter, List.filter_filter]
        exact List.filter_congr (fun x _ => Bool.and_comm _ _)
      rw [hcomm, (hperm.filter p).symm.length_eq]
      have hsplit : getStoredFiles store
          = (getStoredFiles store).take 10 ++ (getStoredFiles store).drop 10 :=
        (List.take_append_drop 10 (getStoredFiles store)).symm
      rw [hsplit, List.filter_append]
      have hnil : ((getStoredFiles store).drop 10).filter p = [] := by
        rw [List.filter_eq_nil_iff]
        intro a ha
        rw [hdropname a ha]
        simp
      rw [hnil, List.append_nil]
      calc (((getStoredFiles store).take 10).filter p).length
          ≤ ((getStoredFiles store).take 10).length := List.length_filter_le _ _
        _ ≤ 10 := List.length_take_le _ _
    · intro k hk hkcsv d hd hdcsv hdnot hnodup
      have hsorted : List.Sorted newerEq (getStoredFiles store) :=
        List.sorted_insertionSort newerEq (store.filter isCsv)
      have hnodupAll : ((getStoredFiles store).map FileEntry.name).Nodup := by
        have hsub : ((store.filter isCsv).map FileEntry.name).Sublist
            (store.map FileEntry.name) := (List.filter_sublist store).map _
        exact ((hperm.map FileEntry.name).nodup_iff).mpr (hsub.nodup hnodup)
      obtain ⟨hkmem, hkp⟩ := List.mem_filter.mp hk
      have hdp : p d = false := by
        cases hbp : p d with
        | false => rfl
        | true => exact absurd (List.mem_filter.mpr ⟨hd, hbp⟩) hdnot
      have hdall : d ∈ getStoredFiles store :=
        hperm.mem_iff.mpr (List.mem_filter.mpr ⟨hd, hdcsv⟩)
      have hkall : k ∈ getStoredFiles store :=
        hperm.mem_iff.mpr (List.mem_filter.mpr ⟨hkmem, hkcsv⟩)
      have hdname : d.name ∈ ((getStoredFiles store).drop 10).map FileEntry.name := by
        rw [hp] at hdp
        have hdc : (((getStoredFiles store).drop 10).map FileEntry.name).contains d.name
            = true := by simpa using hdp
        exact List.elem_iff.mp hdc
      obtain ⟨d2, hd2mem, hd2name⟩ := List.mem_map.mp hdname
      have hd2all : d2 ∈ getStoredFiles store :=
        List.mem_of_mem_drop hd2mem
      have hdd2 : d = d2 :=
        List.inj_on_of_nodup_map hnodupAll hdall hd2all hd2name.symm
      have hktake : k ∈ (getStoredFiles store).take 10 := by
        rcases (List.mem_append.mp
            (by rw [List.take_append_drop 10 (getStoredFiles store)]; exact hkall)) with
          hkt | hkd
        · exact hkt
        · have hkp2 : p k = true := by rw [hp]; exact hkp
          rw [hdropname k hkd] at hkp2
          exact absurd hkp2 (by decide)
      have hpair : List.Pairwise newerEq
          ((getStoredFiles store).take 10 ++ (getStoredFiles store).drop 10) := by
        rw [List.take_append_drop 10 (getStoredFiles store)]
        exact hsorted
      have := (List.pairwise_append.mp hpair).2.2 k hktake d2 hd2mem
      rw [hdd2]
      exact this

/-- Claim C10: every `storeFile` call ends with `keepOnlyLatestFiles(10)`, so
afterwards at most 10 csv files remain in the local store and every deleted
csv file is at least as old (by the timestamp `getStoredFiles` derives,
filename-derived whenever the 12-digit suffix parses) as every surviving csv
file — storing a new file can silently delete previously downloaded files. -/
theorem storeFile_prunes_oldest_beyond_ten (store : List FileEntry)
    (name : String) (now : Int)
    (hnodup : ((writeFile name now store).map FileEntry.name).Nodup) :
    ((storeFile name now store).filter isCsv).length ≤ 10 ∧
      (∀ k ∈ storeFile name now store, isCsv k = true →
        ∀ d ∈ writeFile name now store, isCsv d = true →
          d ∉ storeFile name now store → entryTs d ≤ entryTs k) := by
  obtain ⟨h1, h2⟩ := keepOnlyLatestFiles_bound (writeFile name now store)
  exact ⟨h1, fun k hk hkcsv d hd hdcsv hdnot => h2 k hk hkcsv d hd hdcsv hdnot hnodup⟩

theorem storeFile_prunes_oldest_beyond_ten_witness :
    ((storeFile "a_250101000003.csv" 7
        [⟨"a_250101000001.csv", 0⟩, ⟨"b.txt", 5⟩, ⟨"a_250101000002.csv", 0⟩]).filter
          isCsv).length ≤ 10 ∧
      (∀ k ∈ storeFile "a_250101000003.csv" 7
          [⟨"a_250101000001.csv", 0⟩, ⟨"b.txt", 5⟩, ⟨"a_250101000002.csv", 0⟩],
        isCsv k = true →
        ∀ d ∈ writeFile "a_250101000003.csv" 7
            [⟨"a_250101000001.csv", 0⟩, ⟨"b.txt", 5⟩, ⟨"a_250101000002.csv", 0⟩],
          isCsv d = true →
          d ∉ storeFile "a_250101000003.csv" 7
              [⟨"a_250101000001.csv", 0⟩, ⟨"b.txt", 5⟩, ⟨"a_250101000002.csv", 0⟩] →
            entryTs d ≤ entryTs k) :=
  storeFile_prunes_oldest_beyond_ten
    [⟨"a_250101000001.csv", 0⟩, ⟨"b.txt", 5⟩, ⟨"a_250101000002.csv", 0⟩]
    "a_250101000003.csv" 7 (by decide)

example :
    (⟨"a_250101000001.csv", 0⟩ : FileEntry) ∉
      storeFile "a_250101000011.csv" 0
        [⟨"a_250101000001.csv", 0⟩, ⟨"a_250101000002.csv", 0⟩, ⟨"a_250101000003.csv", 0⟩,
         ⟨"a_250101000004.csv", 0⟩, ⟨"a_250101000005.csv", 0⟩, ⟨"a_250101000006.csv", 0⟩,
         ⟨"a_250101000007.csv", 0⟩, ⟨"a_250101000008.csv", 0⟩, ⟨"a_250101000009.csv", 0⟩,
         ⟨"a_250101000010.csv", 0⟩] := by
  decide

end OceanMonitor
